import Mathlib

/-!
Verification of the requirements-ingestion pipeline
(`src/industry/roles/laravel_ingest_agent.py`, class `IngestSpecsAction`).

The Python source is shallowly embedded below.  Statement text is modelled
as `String` / `List Char`; Python dictionaries with a fixed key set are
modelled as structures; the per-type counter dictionary of `_enrich_metadata`
is modelled as a finite partial map `String → Option Nat` (a missing key,
i.e. `none`, corresponds to a `KeyError`); Python functions that can raise
are modelled in `Except String`.  The external inference service and
Python's `json.loads` are modelled by their outcome (`ClassifyOutcome`).
-/

namespace LaravelIngest

/-- Whitespace test matching Python's `str.split()` / `str.strip()` / regex
`\s` on the ASCII range (space, tab, newline, carriage return, vertical tab,
form feed). -/
def pyIsSpace (c : Char) : Bool :=
  c == ' ' || c == '\t' || c == '\n' || c == '\r' || c == '\x0b' || c == '\x0c'

/-- ASCII lowering, matching Python's `str.lower()` on the ASCII letters that
all keyword tests in the source use. -/
def pyLower (s : List Char) : List Char :=
  s.map (fun c => if 'A' ≤ c ∧ c ≤ 'Z' then Char.ofNat (c.toNat + 32) else c)

/-- Python `str.strip()`: drop whitespace from both ends. -/
def pyStrip (l : List Char) : List Char :=
  ((l.dropWhile pyIsSpace).reverse.dropWhile pyIsSpace).reverse

/-- Python `str.split(sep)` for a one-character separator (used by the source
as `content.split('\n')` and `statement.split(',')`).  Always returns a
non-empty list; the empty string splits to `[""]`. -/
def splitOnChar (sep : Char) : List Char → List (List Char)
  | [] => [[]]
  | c :: cs =>
    match splitOnChar sep cs with
    | [] => [[]]
    | l :: ls => if c = sep then [] :: l :: ls else (c :: l) :: ls

/-- Python `'\n'.split` companion: `sep.join(parts)` for a one-character
separator (used by the source as `'\n'.join(...)`). -/
def joinWithChar (sep : Char) : List (List Char) → List Char
  | [] => []
  | [l] => l
  | l :: l' :: ls => l ++ sep :: joinWithChar sep (l' :: ls)

/-- Helper for `len(line.split())`: counts maximal runs of non-whitespace
characters; the flag records whether we are currently inside such a run. -/
def tokAux : Bool → List Char → Nat
  | _, [] => 0
  | inTok, c :: cs =>
    if pyIsSpace c then tokAux false cs
    else (if inTok then 0 else 1) + tokAux true cs

/-- Python `len(text.split())`: the number of whitespace-separated tokens. -/
def tokenCount (l : List Char) : Nat := tokAux false l

/-- Python substring prefix test: does `l` start with `needle`? -/
def startsWithChars : List Char → List Char → Bool
  | [], _ => true
  | _ :: _, [] => false
  | a :: as, b :: bs => a == b && startsWithChars as bs

/-- Python's `needle in hay` substring containment on strings. -/
def containsSub : List Char → List Char → Bool
  | needle, [] => needle.isEmpty
  | needle, c :: rest => startsWithChars needle (c :: rest) || containsSub needle rest

/-- Decimal digit characters of `n`, with explicit fuel so that the
definition is structurally recursive and computes by `rfl`; `decStr` always
supplies enough fuel. -/
def decDigitsAux : Nat → Nat → List Char
  | 0, _ => []
  | fuel + 1, n =>
    if n < 10 then [Nat.digitChar n]
    else decDigitsAux fuel (n / 10) ++ [Nat.digitChar (n % 10)]

/-- Decimal rendering of a natural number. -/
def decStr (n : Nat) : String := ⟨decDigitsAux (n + 1) n⟩

/-- Python's `f"{n:03d}"`: decimal rendering zero-padded to width 3. -/
def pad3 (n : Nat) : String :=
  if n < 10 then "00" ++ decStr n
  else if n < 100 then "0" ++ decStr n
  else decStr n

/-- The closed six-way TYPE taxonomy of the classification prompt. -/
def sixTypes : List String :=
  ["Intent", "Requirement", "Constraint", "Flow", "Interface", "Design"]

/-- The closed two-way CONTEXT taxonomy of the classification prompt. -/
def twoContexts : List String := ["Environment-specific", "Project-specific"]

/-- A classified statement: the dictionary appended by
`IngestSpecsAction._classify_statements` (keys `id`, `statement`, `type`,
`context`, `context_rationale`). -/
structure ClassifiedStmt where
  id : String
  statement : String
  type : String
  context : String
  context_rationale : String
deriving DecidableEq

/-- Outcome of one classification attempt: the inference call together with
`_extract_json` / `json.loads` is modelled by its result.  `raised` is a
non-decode exception from the call, `decodeError` is a `json.JSONDecodeError`
from `json.loads`, and `obj` is a successfully decoded JSON object whose
three expected keys may each be present or absent (an absent key makes the
subsequent dictionary access raise `KeyError`, a plain `Exception`). -/
inductive ClassifyOutcome where
  | raised
  | decodeError
  | obj (type : Option String) (ctx : Option String) (rationale : Option String)
deriving DecidableEq

/-- One iteration of the loop in `_classify_statements` for the statement at
zero-based position `i`, given the outcome of its classification attempt.
Mirrors the `try`/`except json.JSONDecodeError`/`except Exception` chain. -/
def classifyOne (i : Nat) (statement : String) : ClassifyOutcome → ClassifiedStmt
  | .obj (some t) (some c) (some r) =>
    { id := "STMT-" ++ pad3 (i + 1), statement := statement,
      type := t, context := c, context_rationale := r }
  | .decodeError =>
    { id := "STMT-" ++ pad3 (i + 1), statement := statement,
      type := "Requirement", context := "Project-specific",
      context_rationale := "Auto-classified (LLM error)" }
  | _ =>
    { id := "STMT-" ++ pad3 (i + 1), statement := statement,
      type := "Requirement", context := "Project-specific",
      context_rationale := "Auto-classified (error)" }

/-- Loop of `_classify_statements`, carrying the zero-based index. -/
def classifyGo (i : Nat) : List (String × ClassifyOutcome) → List ClassifiedStmt
  | [] => []
  | (s, o) :: rest => classifyOne i s o :: classifyGo (i + 1) rest

/-- `IngestSpecsAction._classify_statements`: each input statement is paired
with the outcome of its classification attempt. -/
def classifyStatements (inputs : List (String × ClassifyOutcome)) : List ClassifiedStmt :=
  classifyGo 0 inputs

/-- `IngestSpecsAction._determine_routing`: `routing_map.get(stmt_type, [])`. -/
def determineRouting (t : String) : List String :=
  if t = "Intent" then ["PM_Input"]
  else if t = "Requirement" then ["PM_Input", "Context"]
  else if t = "Constraint" then ["Context"]
  else if t = "Flow" then ["Context"]
  else if t = "Interface" then ["Context"]
  else if t = "Design" then ["Architect_Seeds"]
  else []

/-- The P0 keyword list of `_infer_priority`. -/
def p0Keywords : List String := ["must", "shall", "required", "mandatory", "critical"]

/-- The P1 keyword list of `_infer_priority`. -/
def p1Keywords : List String := ["should", "important", "notification", "status"]

/-- `IngestSpecsAction._infer_priority`. -/
def inferPriority (statement : String) : String :=
  let text := pyLower statement.toList
  if p0Keywords.any (fun w => containsSub w.toList text) then "P0"
  else if p1Keywords.any (fun w => containsSub w.toList text) then "P1"
  else "P2"

/-- `IngestSpecsAction._infer_category`. -/
def inferCategory (statement : String) : String :=
  let text := pyLower statement.toList
  if containsSub "upload".toList text then "File Upload"
  else if containsSub "template".toList text || containsSub "download".toList text then
    "File Template Management"
  else if containsSub "validat".toList text || containsSub "error".toList text then
    "Validation & Errors"
  else if containsSub "approv".toList text then "Approval Workflow"
  else if containsSub "status".toList text || containsSub "track".toList text then
    "Status Tracking"
  else if containsSub "notif".toList text then "Notifications"
  else "General"

/-- `IngestSpecsAction._infer_enforcement`. -/
def inferEnforcement (statement : String) : String :=
  let text := pyLower statement.toList
  if containsSub "must".toList text || containsSub "shall".toList text then "Hard constraint"
  else if containsSub "should".toList text then "Soft constraint"
  else "Validation rule"

/-- Leftmost match of the regex `(\d+[\,\d]*)` used by
`_extract_validation_rule`: the maximal run of digits and commas starting at
the first digit of the text. -/
def firstNumRun : List Char → Option (List Char)
  | [] => none
  | c :: rest =>
    if c.isDigit then some ((c :: rest).takeWhile (fun x => x.isDigit || x == ','))
    else firstNumRun rest

/-- `IngestSpecsAction._extract_validation_rule`.  Note the Python control
flow: when the `'up to' / 'maximum'` branch is taken but contains no number,
the function falls through to `'TBD'` without testing the next branch. -/
def extractValidationRule (statement : String) : String :=
  let text := pyLower statement.toList
  if containsSub "positive".toList text && containsSub "amount".toList text then
    "amount > 0"
  else if containsSub "up to".toList text || containsSub "maximum".toList text then
    match firstNumRun text with
    | some g => "<= " ++ ⟨g⟩
    | none => "TBD"
  else if containsSub "required".toList text || containsSub "must include".toList text then
    "NOT NULL"
  else "TBD"

/-- Backtracking step of the regex `kw\s+(.+?),` at a fixed match start:
`r` is the text following the keyword, and the width of the `\s+` part is
tried from `w` downwards (the engine shrinks a greedy `\s+` on failure).
For each width the lazy group ends at the first following comma, which must
be preceded by at least one group character.  Models matching on the
newline-free statement texts the pipeline produces. -/
def kwCommaTryWidth (r : List Char) : Nat → Option (List Char)
  | 0 => none
  | w + 1 =>
    let t := r.drop (w + 1)
    match (t.drop 1).findIdx? (fun c => c == ',') with
    | some k => some (t.take (k + 1))
    | none => kwCommaTryWidth r w

/-- Leftmost match of the regex `kw\s+(.+?),` (used by `_extract_trigger`
with `kw` one of `after`, `when`): scan match-start positions left to right;
at each position require the keyword, then at least one whitespace
character, then a non-empty lazy group ended by a comma. -/
def kwCommaSearch (kw : List Char) : List Char → Option (List Char)
  | [] => none
  | c :: rest =>
    if startsWithChars kw (c :: rest) then
      let r := (c :: rest).drop kw.length
      match kwCommaTryWidth r ((r.takeWhile pyIsSpace).length) with
      | some g => some g
      | none => kwCommaSearch kw rest
    else kwCommaSearch kw rest

/-- `IngestSpecsAction._extract_trigger`.  Note the Python control flow:
when `'after'` occurs but the `after\s+(.+?),` regex finds no match, the
function returns `'TBD'` without ever testing `'when'`. -/
def extractTrigger (statement : String) : String :=
  let text := pyLower statement.toList
  if containsSub "after".toList text then
    match kwCommaSearch "after".toList text with
    | some g => ⟨pyStrip g⟩
    | none => "TBD"
  else if containsSub "when".toList text then
    match kwCommaSearch "when".toList text with
    | some g => ⟨pyStrip g⟩
    | none => "TBD"
  else "TBD"

/-- `IngestSpecsAction._extract_outcome`: last comma-separated part of the
statement, stripped, when the statement contains a comma. -/
def extractOutcome (statement : String) : String :=
  let parts := splitOnChar ',' statement.toList
  if 1 < parts.length then ⟨pyStrip (parts.getLastD [])⟩ else "TBD"

/-- `IngestSpecsAction._extract_pattern`. -/
def extractPattern (statement : String) : String :=
  let text := pyLower statement.toList
  if containsSub "queue".toList text || containsSub "async".toList text then
    "Async Processing Pattern"
  else if containsSub "service".toList text && containsSub "layer".toList text then
    "Service Layer Pattern"
  else if containsSub "controller".toList text then "Controller Pattern"
  else if containsSub "scope".toList text || containsSub "tenant".toList text then
    "Multi-Tenancy Pattern"
  else "Design Pattern"

/-- The inline Interface branch of `_enrich_metadata`. -/
def inferInterfaceType (statement : String) : String :=
  let text := pyLower statement.toList
  if containsSub "api".toList text || containsSub "endpoint".toList text then "API"
  else if containsSub "csv".toList text then "CSV"
  else "UI"

/-- An enriched statement: the dictionary built by `_enrich_metadata`.
Type-specific keys that a given statement does not receive are `none`
(Python: key absent, `stmt.get(...)` returns the default). -/
structure EnrichedStmt where
  id : String
  statement : String
  type : String
  context : String
  context_rationale : String
  routing : List String
  priority : String
  category : Option String
  acceptance_criteria : Option (List String)
  enforcement : Option String
  validation_rule : Option String
  trigger : Option String
  outcome : Option String
  interface_type : Option String
  pattern : Option String
deriving DecidableEq

/-- The `type_counters` dictionary of `_enrich_metadata`, as a finite partial
map: every key of the closed six-way set starts at `0`; any other key is
absent (`none`), and indexing an absent key raises `KeyError`. -/
def initCounters : String → Option Nat :=
  fun t => if t ∈ sixTypes then some 0 else none

/-- Dictionary assignment `counters[k] = v` (only ever applied to a key that
was just looked up successfully). -/
def updateCounter (m : String → Option Nat) (k : String) (v : Nat) : String → Option Nat :=
  fun t => if t = k then some v else m t

/-- The `type_prefixes` dictionary of `_enrich_metadata`; indexing a key
outside the closed set raises `KeyError` (`none`).  Note that `Intent` and
`Interface` both map to the prefix `INT`. -/
def typePrefixes (t : String) : Option String :=
  if t = "Intent" then some "INT"
  else if t = "Requirement" then some "REQ"
  else if t = "Constraint" then some "CON"
  else if t = "Flow" then some "FLOW"
  else if t = "Interface" then some "INT"
  else if t = "Design" then some "DES"
  else none

/-- One loop iteration of `_enrich_metadata` on statement `s`, given the
prefix `pfx` looked up for its type and the incremented counter value `k`:
the copied dictionary with the reassigned id, routing, priority and the
type-specific fields. -/
def enrichOne (s : ClassifiedStmt) (pfx : String) (k : Nat) : EnrichedStmt :=
  { id := pfx ++ "-" ++ pad3 k
    statement := s.statement
    type := s.type
    context := s.context
    context_rationale := s.context_rationale
    routing := determineRouting s.type
    priority := inferPriority s.statement
    category := if s.type = "Requirement" then some (inferCategory s.statement) else none
    acceptance_criteria := if s.type = "Requirement" then some [] else none
    enforcement := if s.type = "Constraint" then some (inferEnforcement s.statement) else none
    validation_rule :=
      if s.type = "Constraint" then some (extractValidationRule s.statement) else none
    trigger := if s.type = "Flow" then some (extractTrigger s.statement) else none
    outcome := if s.type = "Flow" then some (extractOutcome s.statement) else none
    interface_type :=
      if s.type = "Interface" then some (inferInterfaceType s.statement) else none
    pattern := if s.type = "Design" then some (extractPattern s.statement) else none }

/-- Loop body of `_enrich_metadata`, threading the counter dictionary.  A
failed dictionary lookup surfaces as `Except.error` (Python `KeyError`
aborting the method). -/
def enrichGo (m : String → Option Nat) : List ClassifiedStmt → Except String (List EnrichedStmt)
  | [] => .ok []
  | s :: rest =>
    match m s.type with
    | none => .error ("KeyError: " ++ s.type)
    | some n =>
      match typePrefixes s.type with
      | none => .error ("KeyError: " ++ s.type)
      | some pfx =>
        match enrichGo (updateCounter m s.type (n + 1)) rest with
        | .error msg => .error msg
        | .ok es => .ok (enrichOne s pfx (n + 1) :: es)

/-- `IngestSpecsAction._enrich_metadata`: counters restart at zero for every
invocation. -/
def enrichMetadata (classified : List ClassifiedStmt) : Except String (List EnrichedStmt) :=
  enrichGo initCounters classified

/-- The type-scoped identifier `{prefix}-{counter:03d}` assigned by
`_enrich_metadata` to the `n`-th statement of type `t`. -/
def typeScopedId (t : String) (n : Nat) : String :=
  (typePrefixes t).getD "" ++ "-" ++ pad3 n

/-- Identifier list produced by enrichment, or `[]` when enrichment raises;
used to exhibit concrete identifier assignments. -/
def enrichedIdsOf (classified : List ClassifiedStmt) : List String :=
  match enrichMetadata classified with
  | .ok es => es.map (fun e => e.id)
  | .error _ => []

/-- Statement texts produced by enrichment, in order; companion of
`enrichedIdsOf` for exhibiting which statements received which ids. -/
def enrichedStatementTextsOf (classified : List ClassifiedStmt) : List String :=
  match enrichMetadata classified with
  | .ok es => es.map (fun e => e.statement)
  | .error _ => []

/-- One-decimal rendering of the percentage `count / len * 100` used in the
validator's warning strings (`f"{pct:.1f}"`); the difference between exact
rational rounding modelled here and Python float formatting is immaterial to
the properties proved about the validator. -/
def fmtPct (count len : Nat) : String :=
  let tenths := if len = 0 then 0 else count * 1000 / len
  decStr (tenths / 10) ++ "." ++ decStr (tenths % 10)

/-- The exact warning string of the validator's missing-Intent check. -/
def intentWarning : String := "WARN: No Intent statements found - expected at least 3-5"

/-- `IngestSpecsAction._validate_classifications`: the four non-fatal checks,
appended in source order.  The percentage threshold tests are modelled as
exact rational comparisons (`count / len * 100 < b` becomes
`count * 100 < b * len`); an empty corpus reports a percentage of `0`. -/
def validateClassifications (enriched : List EnrichedStmt) : List String :=
  ((enriched.filter (fun s => s.type = "" ∨ s.context = "")).map
      (fun s => "FAIL: " ++ s.id ++ " missing type or context"))
  ++ (let env := enriched.countP (fun s => s.context == "Environment-specific")
      let n := enriched.length
      if n = 0 ∨ env * 100 < 15 * n ∨ 60 * n < env * 100 then
        ["WARN: Environment-specific % is " ++ fmtPct env n ++ "% (expected 20-40%)"]
      else [])
  ++ (if enriched.countP (fun s => s.type == "Intent") = 0 then [intentWarning] else [])
  ++ (let req := enriched.countP (fun s => s.type == "Requirement")
      let n := enriched.length
      if n = 0 ∨ req * 100 < 30 * n then
        ["WARN: Requirements only " ++ fmtPct req n ++ "% - expected 40-60%"]
      else [])

/-- Record of the `requirements` list of `_generate_context_yaml`. -/
structure CtxRequirement where
  id : String
  statement : String
  type : String
  context : String
  context_rationale : String
  priority : String
  category : String
deriving DecidableEq

/-- Record of the `constraints` list of `_generate_context_yaml`
(`stmt.get(...)` without default yields `None`, hence `Option`). -/
structure CtxConstraint where
  id : String
  statement : String
  context : String
  context_rationale : String
  priority : String
  enforcement : Option String
  validation_rule : Option String
deriving DecidableEq

/-- Record of the `flows` list of `_generate_context_yaml`. -/
structure CtxFlow where
  id : String
  statement : String
  context : String
  context_rationale : String
  trigger : Option String
  outcome : Option String
deriving DecidableEq

/-- Record of the `interfaces` list of `_generate_context_yaml`. -/
structure CtxInterface where
  id : String
  statement : String
  context : String
  context_rationale : String
  interface_type : Option String
deriving DecidableEq

/-- Record of the `design_mandates` list of `_generate_context_yaml`. -/
structure CtxDesignMandate where
  id : String
  statement : String
  context_rationale : String
  pattern : Option String
  note : String
deriving DecidableEq

/-- The `context_data` record of `_generate_context_yaml` (metadata plus
four ordered lists plus the design-mandates list).  The final `yaml.dump`
serialization is not modelled; the document is kept as this structured
record.  `now` stands for `datetime.now().strftime(...)`. -/
structure ContextData where
  generated : String
  source : String
  total_statements : Nat
  environment_specific : Nat
  project_specific : Nat
  requirements : List CtxRequirement
  constraints : List CtxConstraint
  flows : List CtxFlow
  interfaces : List CtxInterface
  design_mandates : List CtxDesignMandate
deriving DecidableEq

/-- `IngestSpecsAction._generate_context_yaml`. -/
def generateContextYaml (now : String) (enriched : List EnrichedStmt) : ContextData :=
  { generated := now
    source := "Requirements Ingestion (TYPE + CONTEXT taxonomy)"
    total_statements := enriched.length
    environment_specific := enriched.countP (fun s => s.context == "Environment-specific")
    project_specific := enriched.countP (fun s => s.context == "Project-specific")
    requirements :=
      (enriched.filter (fun s => s.type = "Requirement")).map (fun s =>
        { id := s.id, statement := s.statement, type := s.type, context := s.context,
          context_rationale := s.context_rationale, priority := s.priority,
          category := s.category.getD "Uncategorized" })
    constraints :=
      (enriched.filter (fun s => s.type = "Constraint")).map (fun s =>
        { id := s.id, statement := s.statement, context := s.context,
          context_rationale := s.context_rationale, priority := s.priority,
          enforcement := s.enforcement, validation_rule := s.validation_rule })
    flows :=
      (enriched.filter (fun s => s.type = "Flow")).map (fun s =>
        { id := s.id, statement := s.statement, context := s.context,
          context_rationale := s.context_rationale, trigger := s.trigger,
          outcome := s.outcome })
    interfaces :=
      (enriched.filter (fun s => s.type = "Interface")).map (fun s =>
        { id := s.id, statement := s.statement, context := s.context,
          context_rationale := s.context_rationale, interface_type := s.interface_type })
    design_mandates :=
      (enriched.filter (fun s => s.type = "Design" ∧ s.context = "Environment-specific")).map
        (fun s =>
          { id := s.id, statement := s.statement,
            context_rationale := s.context_rationale, pattern := s.pattern,
            note := "Non-negotiable - environment-specific requirement" }) }

/-- Inline Environment-specific annotation lines used by
`_generate_pm_input_md`. -/
def envRationaleLine (s : EnrichedStmt) : List String :=
  if s.context = "Environment-specific" then
    ["  - *Environment-specific*: " ++ s.context_rationale]
  else []

/-- Insertion-ordered distinct category keys, mirroring the `categories`
dictionary built by `_generate_pm_input_md`. -/
def categoryKeys (reqs : List EnrichedStmt) : List String :=
  reqs.foldl
    (fun acc s =>
      let c := s.category.getD "Uncategorized"
      if c ∈ acc then acc else acc ++ [c])
    []

/-- `IngestSpecsAction._generate_pm_input_md` (the `'\n'.join` of the
accumulated lines); `now` stands for `datetime.now().strftime(...)`. -/
def generatePmInputMd (now : String) (enriched : List EnrichedStmt) : String :=
  let intentStmts := enriched.filter (fun s => s.type = "Intent")
  let reqStmts := enriched.filter (fun s => s.type = "Requirement")
  let interfaceStmts := enriched.filter (fun s =>
    s.type = "Interface" ∧ (s.interface_type = some "UI" ∨ s.interface_type = some "CSV"))
  let header := ["# Product Manager Input", "**Generated:** " ++ now,
    "**Source:** Requirements Ingestion (TYPE + CONTEXT taxonomy)", ""]
  let intentSection :=
    ["## Project Intent", ""]
    ++ (if intentStmts.isEmpty then ["*No intent statements found*"]
        else intentStmts.flatMap (fun s =>
          ["- **" ++ s.id ++ "**: " ++ s.statement] ++ envRationaleLine s))
    ++ [""]
  let reqSection :=
    ["## User Requirements", ""]
    ++ (if reqStmts.isEmpty then ["*No requirements found*"]
        else (categoryKeys reqStmts).flatMap (fun cat =>
          ["### " ++ cat, ""]
          ++ (reqStmts.filter (fun s => s.category.getD "Uncategorized" = cat)).flatMap
              (fun s =>
                ["- **" ++ s.id ++ "** [" ++ s.priority ++ "]: " ++ s.statement]
                ++ envRationaleLine s)
          ++ [""]))
  let interfaceSection :=
    if interfaceStmts.isEmpty then []
    else ["## User-Facing Interfaces", ""]
      ++ interfaceStmts.map (fun s => "- **" ++ s.id ++ "**: " ++ s.statement)
      ++ [""]
  String.intercalate "\n" (header ++ intentSection ++ reqSection ++ interfaceSection)

/-- `IngestSpecsAction._generate_architect_seeds_md`. -/
def generateArchitectSeedsMd (now : String) (enriched : List EnrichedStmt) : String :=
  let designStmts := enriched.filter (fun s => s.type = "Design")
  let flowStmts := enriched.filter (fun s => s.type = "Flow")
  let envDesign := enriched.filter (fun s =>
    s.type = "Design" ∧ s.context = "Environment-specific")
  let header := ["# Architectural Seeds & Design Guidance", "**Generated:** " ++ now, ""]
  let designSection :=
    ["## Design Patterns", ""]
    ++ (if designStmts.isEmpty then ["*No design patterns extracted*", ""]
        else designStmts.flatMap (fun s =>
          ["### " ++ s.id ++ ": " ++ s.pattern.getD "Design Choice",
           "**Statement:** " ++ s.statement,
           "**Context:** " ++ s.context,
           "**Rationale:** " ++ s.context_rationale, ""]))
  let flowSection :=
    if flowStmts.isEmpty then []
    else ["## Complex Flows Requiring Design", ""]
      ++ flowStmts.flatMap (fun s =>
        ["### " ++ s.id,
         "**Flow:** " ++ s.statement,
         "**Trigger:** " ++ s.trigger.getD "TBD",
         "**Outcome:** " ++ s.outcome.getD "TBD", ""])
  let envSection :=
    if envDesign.isEmpty then []
    else ["## Mandated Design Choices (Environment-Specific)", "",
      "*These are non-negotiable requirements specific to the environment:*", ""]
      ++ envDesign.flatMap (fun s =>
        ["- **" ++ s.id ++ "**: " ++ s.statement,
         "  - *Reason*: " ++ s.context_rationale])
      ++ [""]
  let openQuestions :=
    ["## Open Questions", "",
     "*To be identified during architecture design phase:*", "",
     "- How to handle race conditions in concurrent workflows?",
     "- Cache strategy for reference data (currencies, purpose codes)?",
     "- Error granularity: store all errors or limit per file?", ""]
  String.intercalate "\n" (header ++ designSection ++ flowSection ++ envSection ++ openQuestions)

/-- Content of one of the three output artifacts; the context document is
kept as its structured record (its `yaml.dump` rendering is not modelled). -/
inductive OutputDoc where
  | text (content : String)
  | contextDoc (d : ContextData)
deriving DecidableEq

/-- `IngestSpecsAction._generate_outputs`: the dictionary of the three named
artifacts, as an ordered association list. -/
def generateOutputs (now : String) (enriched : List EnrichedStmt) : List (String × OutputDoc) :=
  [("pm_input.md", .text (generatePmInputMd now enriched)),
   ("project_context.yaml", .contextDoc (generateContextYaml now enriched)),
   ("architect_seeds.md", .text (generateArchitectSeedsMd now enriched))]

/-- Steps 5 and 6 of `IngestSpecsAction.run` starting from the enriched
statement list: validation warnings are collected (and only logged), then
the outputs are generated from the same, unaltered enriched list. -/
def runFromEnriched (now : String) (enriched : List EnrichedStmt) :
    List String × List (String × OutputDoc) :=
  (validateClassifications enriched, generateOutputs now enriched)

/-- Loop of `_chunk_content`: `ls` are the remaining lines, `cur` the lines
of the chunk under construction and `n` its running whitespace-token count
(`current_length`). -/
def chunkGo (maxTokens : Nat) : List (List Char) → List (List Char) → Nat → List (List Char)
  | [], cur, _ => if cur.isEmpty then [] else [joinWithChar '\n' cur]
  | line :: rest, cur, n =>
    let lineLen := tokenCount line
    if maxTokens < n + lineLen ∧ ¬cur.isEmpty then
      joinWithChar '\n' cur :: chunkGo maxTokens rest [line] lineLen
    else
      chunkGo maxTokens rest (cur ++ [line]) (n + lineLen)

/-- `IngestSpecsAction._chunk_content`: split on newlines, pack lines
greedily under the whitespace-token budget, join each chunk back with
newlines. -/
def chunkContent (content : List Char) (maxTokens : Nat) : List (List Char) :=
  chunkGo maxTokens (splitOnChar '\n' content) [] 0

/-- The delimiter class `[\.\)\:]` of `_parse_numbered_list`. -/
def numberedDelims : List Char := ['.', ')', ':']

/-- `re.match(r'^\s*\d+[\.\)\:]\s+(.+)$', line)` of `_parse_numbered_list`,
returning the captured group.  Greedy `\s*` and `\d+` are forced (their
classes are disjoint from what follows); after the delimiter, greedy `\s+`
takes the maximal whitespace run and backtracks by one character when
nothing is left for the non-empty group `(.+)`.  Models matching on the
newline-free lines that `response.split('\n')` supplies. -/
def pyMatchNumbered (l : List Char) : Option (List Char) :=
  let afterWs := l.dropWhile pyIsSpace
  if (afterWs.takeWhile Char.isDigit).isEmpty then none
  else
    match afterWs.dropWhile Char.isDigit with
    | [] => none
    | d :: rest =>
      if d ∈ numberedDelims then
        let w := (rest.takeWhile pyIsSpace).length
        if w = 0 then none
        else if w < rest.length then some (rest.dropWhile pyIsSpace)
        else if 2 ≤ w then some (rest.drop (w - 1))
        else none
      else none

/-- `IngestSpecsAction._parse_numbered_list`: strip the response, split into
lines, and keep the stripped captured group of every line the regex
accepts. -/
def parseNumberedList (response : List Char) : List (List Char) :=
  (splitOnChar '\n' (pyStrip response)).filterMap
    (fun line => (pyMatchNumbered line).map pyStrip)

/-- Claim-side shape of an accepted numbered-list line: optional leading
whitespace, at least one digit, a delimiter, then at least one whitespace
character followed by at least one further character (the regex group
`(.+)` — note the group itself may consist of whitespace). -/
def numberedShape (l : List Char) : Bool :=
  let afterWs := l.dropWhile pyIsSpace
  !(afterWs.takeWhile Char.isDigit).isEmpty &&
    match afterWs.dropWhile Char.isDigit with
    | d :: c :: rest2 => numberedDelims.contains d && pyIsSpace c && !rest2.isEmpty
    | _ => false

/-- Claim-side extraction for an accepted numbered-list line: the trimmed
remainder after the delimiter and its first following whitespace
character. -/
def numberedRemainder (l : List Char) : List Char :=
  pyStrip (((l.dropWhile pyIsSpace).dropWhile Char.isDigit).drop 2)

/-- Left inverse of `pad3` on three-character decimal strings; used to show
the zero-padded identifiers are injective below 1000. -/
def unpad3 (s : String) : Nat :=
  match s.data with
  | [a, b, c] => (a.toNat - 48) * 100 + (b.toNat - 48) * 10 + (c.toNat - 48)
  | _ => 0

/-- A classification outcome whose successfully decoded object (if any)
carries values from the closed taxonomies. -/
def okOutcome (o : ClassifyOutcome) : Bool :=
  match o with
  | .obj (some t) (some c) (some _) => sixTypes.contains t && twoContexts.contains c
  | _ => true

set_option maxRecDepth 8192 in
lemma unpad3_pad3 : ∀ n < 1000, unpad3 (pad3 n) = n := by decide

lemma pad3_inj {a b : Nat} (ha : a < 1000) (hb : b < 1000) (h : pad3 a = pad3 b) : a = b := by
  have h1 := unpad3_pad3 a ha
  have h2 := unpad3_pad3 b hb
  rw [← h1, ← h2, h]

lemma string_append_left_cancel {a b c : String} (h : a ++ b = a ++ c) : b = c := by
  have hd : a.data ++ b.data = a.data ++ c.data := congrArg String.data h
  cases b with
  | mk bd =>
    cases c with
    | mk cd => exact congrArg String.mk (List.append_cancel_left hd)

lemma typeScopedId_inj (t : String) {a b : Nat} (ha : a < 1000) (hb : b < 1000)
    (h : typeScopedId t a = typeScopedId t b) : a = b :=
  pad3_inj ha hb (string_append_left_cancel h)

lemma startsWithChars_iff (n : List Char) : ∀ l, startsWithChars n l = true ↔ ∃ q, l = n ++ q := by
  induction n with
  | nil => intro l; simp [startsWithChars]
  | cons a as ih =>
    intro l
    cases l with
    | nil => simp [startsWithChars]
    | cons b bs =>
      simp only [startsWithChars, Bool.and_eq_true, beq_iff_eq, ih, List.cons_append]
      constructor
      · rintro ⟨rfl, q, rfl⟩; exact ⟨q, rfl⟩
      · rintro ⟨q, h⟩
        injection h with h1 h2
        exact ⟨h1.symm, q, h2⟩

lemma containsSub_iff (n : List Char) : ∀ h, containsSub n h = true ↔ ∃ p q, h = p ++ n ++ q := by
  intro h
  induction h with
  | nil =>
    simp only [containsSub, List.isEmpty_iff]
    constructor
    · rintro rfl; exact ⟨[], [], rfl⟩
    · rintro ⟨p, q, hpq⟩
      rcases List.append_eq_nil.mp (List.append_eq_nil.mp hpq.symm).1 with ⟨_, h2⟩
      exact h2
  | cons c rest ih =>
    simp only [containsSub, Bool.or_eq_true, startsWithChars_iff, ih]
    constructor
    · rintro (⟨q, hq⟩ | ⟨p, q, hpq⟩)
      · exact ⟨[], q, by simpa using hq⟩
      · exact ⟨c :: p, q, by simp [hpq]⟩
    · rintro ⟨p, q, hpq⟩
      cases p with
      | nil => exact Or.inl ⟨q, by simpa using hpq⟩
      | cons x xs =>
        injection hpq with h1 h2
        exact Or.inr ⟨xs, q, h2⟩

lemma splitOnChar_ne_nil (sep : Char) : ∀ l, splitOnChar sep l ≠ [] := by
  intro l
  cases l with
  | nil => simp [splitOnChar]
  | cons c cs =>
    simp only [splitOnChar]
    split
    · simp
    · split <;> simp

lemma splitOnChar_cons_eq {sep c : Char} {cs a : List Char} {as : List (List Char)}
    (hs : splitOnChar sep cs = a :: as) :
    splitOnChar sep (c :: cs) = if c = sep then [] :: a :: as else (c :: a) :: as := by
  simp only [splitOnChar, hs]

lemma joinWithChar_cons_of_ne_nil (sep : Char) (x : List Char) {C : List (List Char)}
    (h : C ≠ []) : joinWithChar sep (x :: C) = x ++ sep :: joinWithChar sep C := by
  cases C with
  | nil => exact absurd rfl h
  | cons y ys => rfl

lemma joinWithChar_splitOnChar (sep : Char) : ∀ l, joinWithChar sep (splitOnChar sep l) = l := by
  intro l
  induction l with
  | nil => rfl
  | cons c cs ih =>
    cases hs : splitOnChar sep cs with
    | nil => exact absurd hs (splitOnChar_ne_nil sep cs)
    | cons a as =>
      rw [hs] at ih
      rw [splitOnChar_cons_eq hs]
      by_cases hc : c = sep
      · rw [if_pos hc, joinWithChar_cons_of_ne_nil sep [] (by simp : a :: as ≠ []), ih, hc]
        rfl
      · rw [if_neg hc]
        cases as with
        | nil => simpa [joinWithChar] using congrArg (c :: ·) ih
        | cons a2 as2 => simpa [joinWithChar] using congrArg (c :: ·) ih

lemma not_mem_splitOnChar (sep : Char) : ∀ l, ∀ p ∈ splitOnChar sep l, sep ∉ p := by
  intro l
  induction l with
  | nil => intro p hp; simp only [splitOnChar, List.mem_singleton] at hp; simp [hp]
  | cons c cs ih =>
    intro p hp
    cases hs : splitOnChar sep cs with
    | nil => exact absurd hs (splitOnChar_ne_nil sep cs)
    | cons a as =>
      rw [splitOnChar_cons_eq hs] at hp
      by_cases hc : c = sep
      · rw [if_pos hc] at hp
        rcases List.mem_cons.mp hp with rfl | hp
        · simp
        · exact ih p (hs ▸ hp)
      · rw [if_neg hc] at hp
        rcases List.mem_cons.mp hp with rfl | hp
        · intro hmem
          rcases List.mem_cons.mp hmem with hmem | hmem
          · exact hc hmem.symm
          · exact ih a (hs ▸ List.mem_cons_self a as) hmem
        · exact ih p (hs ▸ List.mem_cons_of_mem a hp)

lemma sep_mem_of_one_lt_splitOnChar {sep : Char} : ∀ {l : List Char},
    1 < (splitOnChar sep l).length → sep ∈ l := by
  intro l
  induction l with
  | nil => intro h; simp [splitOnChar] at h
  | cons c cs ih =>
    intro h
    cases hs : splitOnChar sep cs with
    | nil => exact absurd hs (splitOnChar_ne_nil sep cs)
    | cons a as =>
      rw [splitOnChar_cons_eq hs] at h
      by_cases hc : c = sep
      · exact hc ▸ List.mem_cons_self c cs
      · rw [if_neg hc] at h
        cases as with
        | nil => simp at h
        | cons a2 as2 =>
          exact List.mem_cons_of_mem c (ih (by rw [hs]; simp))

lemma two_le_of_sep_mem_joinWithChar {sep : Char} : ∀ {ls : List (List Char)},
    (∀ p ∈ ls, sep ∉ p) → sep ∈ joinWithChar sep ls → 2 ≤ ls.length := by
  intro ls hp hm
  match ls with
  | [] => simp [joinWithChar] at hm
  | [l] => exact absurd hm (hp l (by simp))
  | l :: l' :: rest => simp

lemma joinWithChar_append (sep : Char) : ∀ (a b : List (List Char)), a ≠ [] → b ≠ [] →
    joinWithChar sep (a ++ b) = joinWithChar sep a ++ sep :: joinWithChar sep b := by
  intro a
  induction a with
  | nil => intro b h; exact absurd rfl h
  | cons l as ih =>
    intro b _ hb
    cases as with
    | nil =>
      cases b with
      | nil => exact absurd rfl hb
      | cons b0 bs => simp [joinWithChar]
    | cons a1 as1 =>
      have h1 := ih b (by simp) hb
      calc joinWithChar sep ((l :: a1 :: as1) ++ b)
          = l ++ sep :: joinWithChar sep ((a1 :: as1) ++ b) := by
            rw [List.cons_append]
            exact joinWithChar_cons_of_ne_nil sep l (by simp)
        _ = l ++ sep :: (joinWithChar sep (a1 :: as1) ++ sep :: joinWithChar sep b) := by rw [h1]
        _ = joinWithChar sep (l :: a1 :: as1) ++ sep :: joinWithChar sep b := by
            simp [joinWithChar]

lemma tokAux_append_sep {sep : Char} (hsep : pyIsSpace sep = true) :
    ∀ (xs : List Char) (b : Bool) (ys : List Char),
      tokAux b (xs ++ sep :: ys) = tokAux b xs + tokAux false ys := by
  intro xs
  induction xs with
  | nil => intro b ys; simp [tokAux, hsep]
  | cons c cs ih =>
    intro b ys
    by_cases hc : pyIsSpace c = true
    · simp [tokAux, hc, ih]
    · simp [tokAux, hc, ih, Nat.add_assoc]

lemma tokenCount_joinWithChar {sep : Char} (hsep : pyIsSpace sep = true) :
    ∀ ls : List (List Char), ls ≠ [] →
      tokenCount (joinWithChar sep ls) = (ls.map tokenCount).sum := by
  intro ls
  induction ls with
  | nil => intro h; exact absurd rfl h
  | cons l ls' ih =>
    intro _
    cases ls' with
    | nil => simp [joinWithChar]
    | cons l2 ls2 =>
      have h1 := ih (by simp)
      rw [joinWithChar_cons_of_ne_nil sep l (by simp)]
      simp only [tokenCount] at *
      rw [tokAux_append_sep hsep]
      simp [tokenCount, h1]

lemma chunkGo_ne_nil (max : Nat) : ∀ (ls cur : List (List Char)) (n : Nat), cur ≠ [] →
    chunkGo max ls cur n ≠ [] := by
  intro ls
  induction ls with
  | nil => intro cur n h; simp [chunkGo, h]
  | cons line rest ih =>
    intro cur n h
    simp only [chunkGo]
    split
    · simp
    · exact ih _ _ (by simp)

lemma chunkGo_join (max : Nat) : ∀ (ls cur : List (List Char)) (n : Nat), cur ≠ [] →
    joinWithChar '\n' (chunkGo max ls cur n) = joinWithChar '\n' (cur ++ ls) := by
  intro ls
  induction ls with
  | nil => intro cur n h; simp [chunkGo, h, joinWithChar]
  | cons line rest ih =>
    intro cur n h
    simp only [chunkGo]
    split
    · rw [joinWithChar_cons_of_ne_nil '\n' _ (chunkGo_ne_nil max rest [line] _ (by simp)),
        ih [line] _ (by simp), List.singleton_append,
        ← joinWithChar_append '\n' cur (line :: rest) h (by simp)]
    · rw [ih (cur ++ [line]) _ (by simp)]
      simp

lemma chunkContent_join (content : List Char) (max : Nat) :
    joinWithChar '\n' (chunkContent content max) = content := by
  unfold chunkContent
  cases hs : splitOnChar '\n' content with
  | nil => exact absurd hs (splitOnChar_ne_nil _ _)
  | cons l ls =>
    have h1 : chunkGo max (l :: ls) [] 0 = chunkGo max ls [l] (0 + tokenCount l) := by
      simp [chunkGo]
    rw [h1, chunkGo_join max ls [l] _ (by simp)]
    have := joinWithChar_splitOnChar '\n' content
    rw [hs] at this
    simpa using this

lemma chunkGo_bound (max : Nat) : ∀ (ls cur : List (List Char)) (n : Nat),
    (∀ l ∈ ls, ('\n' : Char) ∉ l) → (∀ l ∈ cur, ('\n' : Char) ∉ l) →
    n = (cur.map tokenCount).sum → (2 ≤ cur.length → n ≤ max) →
    ∀ chunk ∈ chunkGo max ls cur n, ('\n' : Char) ∈ chunk → tokenCount chunk ≤ max := by
  intro ls
  induction ls with
  | nil =>
    intro cur n _ hcur hn hb chunk hm hnl
    simp only [chunkGo] at hm
    split at hm
    · simp at hm
    · next hne =>
      simp only [List.mem_singleton] at hm
      subst hm
      have hcurne : cur ≠ [] := by
        intro hc; rw [hc] at hne; simp at hne
      have h2 : 2 ≤ cur.length := two_le_of_sep_mem_joinWithChar hcur hnl
      rw [tokenCount_joinWithChar (by decide) cur hcurne, ← hn]
      exact hb h2
  | cons line rest ih =>
    intro cur n hls hcur hn hb chunk hm hnl
    simp only [chunkGo] at hm
    split at hm
    · next hcond =>
      rcases List.mem_cons.mp hm with rfl | hm'
      · have hcurne : cur ≠ [] := by
          intro hc; rw [hc] at hcond; simp at hcond
        have h2 : 2 ≤ cur.length := two_le_of_sep_mem_joinWithChar hcur hnl
        rw [tokenCount_joinWithChar (by decide) cur hcurne, ← hn]
        exact hb h2
      · exact ih [line] (tokenCount line)
          (fun l hl => hls l (List.mem_cons_of_mem line hl))
          (fun l hl => by
            rw [List.mem_singleton] at hl
            exact hl ▸ hls line (List.mem_cons_self line rest))
          (by simp) (by simp) chunk hm' hnl
    · next hcond =>
      refine ih (cur ++ [line]) (n + tokenCount line)
        (fun l hl => hls l (List.mem_cons_of_mem line hl))
        (fun l hl => ?_) (by simp [hn]) (fun h2 => ?_) chunk hm hnl
      · rcases List.mem_append.mp hl with hl | hl
        · exact hcur l hl
        · rw [List.mem_singleton] at hl
          exact hl ▸ hls line (List.mem_cons_self line rest)
      · by_cases hc : cur = []
        · rw [hc] at h2; simp at h2
        · have : ¬ max < n + tokenCount line := by
            intro hlt
            exact hcond ⟨hlt, by simp [List.isEmpty_iff, hc]⟩
          omega

lemma dropWhile_dropWhile_self (p : Char → Bool) : ∀ l : List Char,
    (l.dropWhile p).dropWhile p = l.dropWhile p := by
  intro l
  induction l with
  | nil => rfl
  | cons c cs ih =>
    by_cases hc : p c = true
    · simp [List.dropWhile_cons, hc, ih]
    · simp [List.dropWhile_cons, hc]

lemma pyStrip_dropWhile (l : List Char) : pyStrip (l.dropWhile pyIsSpace) = pyStrip l := by
  unfold pyStrip
  rw [dropWhile_dropWhile_self]

lemma pyStrip_all_space {l : List Char} (h : ∀ c ∈ l, pyIsSpace c = true) : pyStrip l = [] := by
  unfold pyStrip
  rw [List.dropWhile_eq_nil_iff.mpr h]
  rfl

lemma all_space_of_takeWhile_length : ∀ {l : List Char},
    (l.takeWhile pyIsSpace).length = l.length → ∀ c ∈ l, pyIsSpace c = true := by
  intro l
  induction l with
  | nil => simp
  | cons c cs ih =>
    intro h x hx
    by_cases hc : pyIsSpace c = true
    · rw [List.takeWhile_cons, if_pos hc] at h
      simp only [List.length_cons, Nat.add_right_cancel_iff] at h
      rcases List.mem_cons.mp hx with rfl | hx
      · exact hc
      · exact ih h x hx
    · rw [List.takeWhile_cons, if_neg hc] at h
      simp at h

lemma takeWhile_length_le (p : Char → Bool) : ∀ l : List Char,
    (l.takeWhile p).length ≤ l.length := by
  intro l
  induction l with
  | nil => simp
  | cons c cs ih =>
    rw [List.takeWhile_cons]
    split
    · simpa using ih
    · simp

lemma takeWhile_eq_self_of_all (p : Char → Bool) : ∀ l : List Char,
    (∀ x ∈ l, p x = true) → l.takeWhile p = l := by
  intro l
  induction l with
  | nil => simp
  | cons c cs ih =>
    intro h
    rw [List.takeWhile_cons, if_pos (h c (List.mem_cons_self c cs)),
      ih (fun x hx => h x (List.mem_cons_of_mem c hx))]

lemma pyMatchNumbered_eq (l : List Char) :
    (pyMatchNumbered l).map pyStrip =
      if numberedShape l then some (numberedRemainder l) else none := by
  unfold pyMatchNumbered numberedShape numberedRemainder
  by_cases hd : ((l.dropWhile pyIsSpace).takeWhile Char.isDigit).isEmpty
  · simp [hd]
  · simp only [hd, Bool.not_false, Bool.true_and]
    cases hD : (l.dropWhile pyIsSpace).dropWhile Char.isDigit with
    | nil => simp
    | cons d rest =>
      cases rest with
      | nil =>
        by_cases hdel : d ∈ numberedDelims
        · simp [hdel]
        · simp [hdel]
      | cons c rest2 =>
        by_cases hdel : d ∈ numberedDelims
        · by_cases hsp : pyIsSpace c = true
          · cases rest2 with
            | nil =>
              have hw : ((c :: ([] : List Char)).takeWhile pyIsSpace).length = 1 := by
                simp [List.takeWhile_cons, hsp]
              simp [hdel, hsp, hw, List.elem_iff.mpr hdel]
            | cons e rest3 =>
              have hwpos : 0 < ((c :: e :: rest3).takeWhile pyIsSpace).length := by
                simp [List.takeWhile_cons, hsp]
              by_cases hlt :
                  ((c :: e :: rest3).takeWhile pyIsSpace).length < (c :: e :: rest3).length
              · have hgroup : (c :: e :: rest3).dropWhile pyIsSpace
                    = (e :: rest3).dropWhile pyIsSpace := by
                  simp [List.dropWhile_cons, hsp]
                have hstrip : pyStrip ((e :: rest3).dropWhile pyIsSpace)
                    = pyStrip (e :: rest3) := pyStrip_dropWhile (e :: rest3)
                simp only [if_pos hdel, Nat.pos_iff_ne_zero.mp hwpos, if_neg, if_pos hlt]
                simp [hdel, List.elem_iff.mpr hdel, hsp, Nat.pos_iff_ne_zero.mp hwpos, hlt,
                  hgroup, hstrip]
              · have hwle := takeWhile_length_le pyIsSpace (c :: e :: rest3)
                have hweq : ((c :: e :: rest3).takeWhile pyIsSpace).length
                    = (c :: e :: rest3).length := by omega
                have hall := all_space_of_takeWhile_length hweq
                have htw : List.takeWhile pyIsSpace (e :: rest3) = e :: rest3 :=
                  takeWhile_eq_self_of_all pyIsSpace (e :: rest3)
                    (fun x hx => hall x (List.mem_cons_of_mem c hx))
                have hstripdrop :
                    pyStrip (List.drop rest3.length (e :: rest3)) = [] := by
                  apply pyStrip_all_space
                  intro x hx
                  exact hall x (List.mem_cons_of_mem c (List.mem_of_mem_drop hx))
                have htailall : pyStrip (e :: rest3) = [] := by
                  apply pyStrip_all_space
                  intro x hx
                  exact hall x (List.mem_cons_of_mem c hx)
                simp [hdel, List.elem_iff.mpr hdel, hsp, htw, hstripdrop, htailall]
          · have hw : ((c :: rest2).takeWhile pyIsSpace).length = 0 := by
              simp [List.takeWhile_cons, hsp]
            simp [hdel, List.elem_iff.mpr hdel, hsp, hw]
        · simp [hdel, fun h => hdel (List.elem_iff.mp h)]

lemma filterMap_eq_filter_map {α β : Type} (f : α → Option β) (p : α → Bool) (g : α → β)
    (h : ∀ a, f a = if p a then some (g a) else none) :
    ∀ l : List α, l.filterMap f = (l.filter p).map g := by
  intro l
  induction l with
  | nil => rfl
  | cons a as ih =>
    simp only [List.filterMap_cons, List.filter_cons, h a]
    by_cases hp : p a = true
    · simp [hp, ih]
    · simp [hp, ih]

/-- C5: for every statement text, `_infer_priority` follows strict tier
precedence on the case-insensitively lowered text: if any P0 keyword (must,
shall, required, mandatory, critical) occurs as a substring the result is
P0; otherwise if any P1 keyword (should, important, notification, status)
occurs the result is P1; otherwise the result is P2. -/
theorem claim_C5 (s : String) :
    ((∃ w ∈ p0Keywords, ∃ p q, pyLower s.toList = p ++ w.toList ++ q) →
        inferPriority s = "P0")
    ∧ ((¬ ∃ w ∈ p0Keywords, ∃ p q, pyLower s.toList = p ++ w.toList ++ q) →
       (∃ w ∈ p1Keywords, ∃ p q, pyLower s.toList = p ++ w.toList ++ q) →
        inferPriority s = "P1")
    ∧ ((¬ ∃ w ∈ p0Keywords, ∃ p q, pyLower s.toList = p ++ w.toList ++ q) →
       (¬ ∃ w ∈ p1Keywords, ∃ p q, pyLower s.toList = p ++ w.toList ++ q) →
        inferPriority s = "P2") := by
  have hiff : ∀ kws : List String,
      (kws.any (fun w => containsSub w.toList (pyLower s.toList)) = true) ↔
        (∃ w ∈ kws, ∃ p q, pyLower s.toList = p ++ w.toList ++ q) := by
    intro kws
    rw [List.any_eq_true]
    constructor
    · rintro ⟨w, hw, hc⟩
      exact ⟨w, hw, (containsSub_iff w.toList (pyLower s.toList)).mp hc⟩
    · rintro ⟨w, hw, hc⟩
      exact ⟨w, hw, (containsSub_iff w.toList (pyLower s.toList)).mpr hc⟩
  refine ⟨fun h0 => ?_, fun h0 h1 => ?_, fun h0 h1 => ?_⟩
  · simp only [inferPriority]
    rw [if_pos ((hiff p0Keywords).mpr h0)]
  · simp only [inferPriority]
    rw [if_neg (fun hc => h0 ((hiff p0Keywords).mp hc)),
      if_pos ((hiff p1Keywords).mpr h1)]
  · simp only [inferPriority]
    rw [if_neg (fun hc => h0 ((hiff p0Keywords).mp hc)),
      if_neg (fun hc => h1 ((hiff p1Keywords).mp hc))]

theorem claim_C5_witness :
    (∃ w ∈ p0Keywords, ∃ p q,
        pyLower "Payments must be positive".toList = p ++ w.toList ++ q)
    ∧ inferPriority "Payments must be positive" = "P0" := by
  have hx : ∃ w ∈ p0Keywords, ∃ p q,
      pyLower "Payments must be positive".toList = p ++ w.toList ++ q :=
    ⟨"must", by decide,
      (containsSub_iff "must".toList (pyLower "Payments must be positive".toList)).mp
        (by decide)⟩
  exact ⟨hx, (claim_C5 "Payments must be positive").1 hx⟩

/-- C6: `_chunk_content` cuts only at line boundaries — joining the returned
chunks with a newline separator restores the original text exactly — and
every chunk consisting of more than one line has a whitespace-token count
within the token budget. -/
theorem claim_C6 (content : List Char) (maxTokens : Nat) :
    joinWithChar '\n' (chunkContent content maxTokens) = content
    ∧ ∀ chunk ∈ chunkContent content maxTokens,
        1 < (splitOnChar '\n' chunk).length → tokenCount chunk ≤ maxTokens := by
  constructor
  · exact chunkContent_join content maxTokens
  · intro chunk hm hlen
    exact chunkGo_bound maxTokens (splitOnChar '\n' content) [] 0
      (not_mem_splitOnChar '\n' content) (by simp) rfl
      (fun h2 => by simp at h2) chunk hm
      (sep_mem_of_one_lt_splitOnChar hlen)

theorem claim_C6_witness :
    "c d\ne".toList ∈ chunkContent "a b\nc d\ne".toList 3
    ∧ 1 < (splitOnChar '\n' "c d\ne".toList).length
    ∧ tokenCount "c d\ne".toList ≤ 3 :=
  ⟨by decide, by decide,
    (claim_C6 "a b\nc d\ne".toList 3).2 "c d\ne".toList (by decide) (by decide)⟩

/-- C7: `_parse_numbered_list` returns exactly, in original line order, the
trimmed captured remainders of those lines that match an optional-whitespace
prefix, an integer, one of the delimiters `.`, `)`, `:`, and a whitespace
character followed by non-empty content; every other line contributes no
statement, and the parser is total (it never raises). -/
theorem claim_C7 (response : List Char) :
    parseNumberedList response =
      ((splitOnChar '\n' (pyStrip response)).filter numberedShape).map numberedRemainder := by
  unfold parseNumberedList
  exact filterMap_eq_filter_map _ numberedShape numberedRemainder pyMatchNumbered_eq
    (splitOnChar '\n' (pyStrip response))

lemma mem_six_typePrefixes {t : String} (h : t ∈ sixTypes) : (typePrefixes t).isSome := by
  fin_cases h <;> rfl

lemma enrichGo_cons_eq {m : String → Option Nat} {s : ClassifiedStmt} {n : Nat} {pfx : String}
    (hm : m s.type = some n) (hp : typePrefixes s.type = some pfx)
    (rest : List ClassifiedStmt) :
    enrichGo m (s :: rest) =
      match enrichGo (updateCounter m s.type (n + 1)) rest with
      | .error msg => .error msg
      | .ok es => .ok (enrichOne s pfx (n + 1) :: es) := by
  simp only [enrichGo, hm, hp]

lemma enrichGo_routing : ∀ (cls : List ClassifiedStmt) (m : String → Option Nat)
    (es : List EnrichedStmt), enrichGo m cls = .ok es →
    ∀ e ∈ es, e.routing = determineRouting e.type := by
  intro cls
  induction cls with
  | nil =>
    intro m es h e he
    simp only [enrichGo] at h
    injection h with h
    rw [← h] at he
    simp at he
  | cons s rest ih =>
    intro m es h e he
    cases hm : m s.type with
    | none => simp [enrichGo, hm] at h
    | some n =>
      cases hp : typePrefixes s.type with
      | none => simp [enrichGo, hm, hp] at h
      | some pfx =>
        rw [enrichGo_cons_eq hm hp] at h
        cases hr : enrichGo (updateCounter m s.type (n + 1)) rest with
        | error msg => rw [hr] at h; exact absurd h (by simp)
        | ok es' =>
          rw [hr] at h
          injection h with h
          rw [← h] at he
          rcases List.mem_cons.mp he with rfl | he'
          · rfl
          · exact ih _ _ hr e he'

lemma updateCounter_dom {m : String → Option Nat} {k : String} {v : Nat}
    (hdom : ∀ t, (m t).isSome ↔ t ∈ sixTypes) (hk : k ∈ sixTypes) :
    ∀ t, ((updateCounter m k v) t).isSome ↔ t ∈ sixTypes := by
  intro t
  unfold updateCounter
  by_cases ht : t = k
  · simp [ht, hk]
  · simp [ht, hdom t]

lemma enrichGo_err : ∀ (cls : List ClassifiedStmt) (m : String → Option Nat),
    (∀ t, (m t).isSome ↔ t ∈ sixTypes) →
    (∃ s ∈ cls, s.type ∉ sixTypes) →
    ∃ msg, enrichGo m cls = .error msg := by
  intro cls
  induction cls with
  | nil => intro m _ h; simp at h
  | cons s rest ih =>
    intro m hdom hbad
    by_cases hs : s.type ∈ sixTypes
    · obtain ⟨n, hm⟩ := Option.isSome_iff_exists.mp ((hdom s.type).mpr hs)
      obtain ⟨pfx, hp⟩ := Option.isSome_iff_exists.mp (mem_six_typePrefixes hs)
      obtain ⟨x, hx, hxbad⟩ := hbad
      have hxrest : x ∈ rest := by
        rcases List.mem_cons.mp hx with rfl | hx'
        · exact absurd hs hxbad
        · exact hx'
      obtain ⟨msg, hmsg⟩ := ih (updateCounter m s.type (n + 1))
        (updateCounter_dom hdom hs) ⟨x, hxrest, hxbad⟩
      refine ⟨msg, ?_⟩
      rw [enrichGo_cons_eq hm hp, hmsg]
    · have hm : m s.type = none := by
        cases hmt : m s.type with
        | none => rfl
        | some n => exact absurd ((hdom s.type).mp (by simp [hmt])) hs
      exact ⟨"KeyError: " ++ s.type, by simp [enrichGo, hm]⟩

lemma enrichGo_ids : ∀ (cls : List ClassifiedStmt) (m : String → Option Nat),
    (∀ s ∈ cls, s.type ∈ sixTypes) →
    (∀ t, (m t).isSome ↔ t ∈ sixTypes) →
    ∃ es, enrichGo m cls = .ok es ∧
      ∀ t, ((es.filter (fun e => e.type = t)).map (fun e => e.id))
        = (List.range ((cls.filter (fun s => s.type = t)).length)).map
            (fun j => typeScopedId t ((m t).getD 0 + j + 1)) := by
  intro cls
  induction cls with
  | nil =>
    intro m _ _
    exact ⟨[], rfl, fun t => by simp⟩
  | cons s rest ih =>
    intro m hall hdom
    have hs : s.type ∈ sixTypes := hall s (List.mem_cons_self s rest)
    obtain ⟨n, hm⟩ := Option.isSome_iff_exists.mp ((hdom s.type).mpr hs)
    obtain ⟨pfx, hp⟩ := Option.isSome_iff_exists.mp (mem_six_typePrefixes hs)
    obtain ⟨es', hes', hids⟩ := ih (updateCounter m s.type (n + 1))
      (fun x hx => hall x (List.mem_cons_of_mem s hx)) (updateCounter_dom hdom hs)
    refine ⟨enrichOne s pfx (n + 1) :: es', ?_, ?_⟩
    · rw [enrichGo_cons_eq hm hp, hes']
    · intro t
      have htype : (enrichOne s pfx (n + 1)).type = s.type := rfl
      by_cases ht : t = s.type
      · subst ht
        have hupd : (updateCounter m s.type (n + 1)) s.type = some (n + 1) := by
          simp [updateCounter]
        rw [List.filter_cons, List.filter_cons]
        simp only [htype, decide_True, if_true]
        have hids' := hids s.type
        rw [hupd] at hids'
        simp only [Option.getD_some] at hids'
        rw [List.map_cons, hids', List.length_cons, List.range_succ_eq_map,
          List.map_cons, List.map_map, hm]
        simp only [Option.getD_some]
        congr 1
        · show (enrichOne s pfx (n + 1)).id = typeScopedId s.type (n + 0 + 1)
          simp [enrichOne, typeScopedId, hp]
        · apply List.map_congr_left
          intro j _
          show typeScopedId s.type (n + 1 + j + 1) = typeScopedId s.type (n + (j + 1) + 1)
          congr 1
          omega
      · have hupd : (updateCounter m s.type (n + 1)) t = m t := by
          simp [updateCounter, ht]
        rw [List.filter_cons, List.filter_cons]
        have hne : ¬ ((enrichOne s pfx (n + 1)).type = t) := fun hc => ht (hc.symm ▸ rfl)
        have hne' : ¬ (s.type = t) := fun hc => ht hc.symm
        simp only [hne, hne', if_neg, decide_False]
        have hids' := hids t
        rw [hupd] at hids'
        simpa using hids'

lemma initCounters_dom : ∀ t, (initCounters t).isSome ↔ t ∈ sixTypes := by
  intro t
  unfold initCounters
  by_cases h : t ∈ sixTypes <;> simp [h]

/-- C1 (amended): for each of the six types, the identifiers assigned by
`_enrich_metadata` to statements of that type are exactly `prefix-001`,
`prefix-002`, … in order of first appearance — contiguous from 1 and
pairwise distinct (for corpora of at most 999 statements, within the reach
of the three-digit zero padding).  Identifiers sharing a *prefix* are not
unique across types: Intent and Interface both use the prefix `INT`, so an
Intent and an Interface statement can carry the same identifier string (see
the counterexample). -/
theorem claim_C1 (cls : List ClassifiedStmt)
    (hall : ∀ s ∈ cls, s.type ∈ sixTypes) (hlen : cls.length ≤ 999) :
    ∃ es, enrichMetadata cls = .ok es ∧
      ∀ t ∈ sixTypes,
        ((es.filter (fun e => e.type = t)).map (fun e => e.id))
            = (List.range ((cls.filter (fun s => s.type = t)).length)).map
                (fun j => typeScopedId t (j + 1))
        ∧ ((es.filter (fun e => e.type = t)).map (fun e => e.id)).Nodup := by
  obtain ⟨es, hes, hids⟩ := enrichGo_ids cls initCounters hall initCounters_dom
  refine ⟨es, hes, fun t ht => ?_⟩
  have h0 : (initCounters t).getD 0 = 0 := by simp [initCounters, ht]
  have hids' := hids t
  rw [h0] at hids'
  have heq : ((es.filter (fun e => e.type = t)).map (fun e => e.id))
      = (List.range ((cls.filter (fun s => s.type = t)).length)).map
          (fun j => typeScopedId t (j + 1)) := by
    rw [hids']
    apply List.map_congr_left
    intro j _
    congr 1
    omega
  refine ⟨heq, ?_⟩
  rw [heq]
  have hk : (cls.filter (fun s => s.type = t)).length ≤ 999 :=
    le_trans (List.length_filter_le _ cls) hlen
  apply List.Nodup.map_on _ (List.nodup_range _)
  intro x hx y hy hxy
  have hx' : x + 1 < 1000 := by
    have := List.mem_range.mp hx
    omega
  have hy' : y + 1 < 1000 := by
    have := List.mem_range.mp hy
    omega
  have := typeScopedId_inj t hx' hy' hxy
  omega

theorem claim_C1_witness :
    (∀ s ∈ [(⟨"STMT-001", "a", "Intent", "Project-specific", "r"⟩ : ClassifiedStmt),
            ⟨"STMT-002", "b", "Requirement", "Project-specific", "r"⟩,
            ⟨"STMT-003", "c", "Intent", "Environment-specific", "r"⟩],
        s.type ∈ sixTypes)
    ∧ (∃ es, enrichMetadata
          [(⟨"STMT-001", "a", "Intent", "Project-specific", "r"⟩ : ClassifiedStmt),
           ⟨"STMT-002", "b", "Requirement", "Project-specific", "r"⟩,
           ⟨"STMT-003", "c", "Intent", "Environment-specific", "r"⟩] = .ok es ∧
        ∀ t ∈ sixTypes,
          ((es.filter (fun e => e.type = t)).map (fun e => e.id))
              = (List.range (([
                  (⟨"STMT-001", "a", "Intent", "Project-specific", "r"⟩ : ClassifiedStmt),
                  ⟨"STMT-002", "b", "Requirement", "Project-specific", "r"⟩,
                  ⟨"STMT-003", "c", "Intent", "Environment-specific", "r"⟩].filter
                    (fun s => s.type = t)).length)).map (fun j => typeScopedId t (j + 1))
          ∧ ((es.filter (fun e => e.type = t)).map (fun e => e.id)).Nodup) :=
  ⟨by decide, claim_C1 _ (by decide) (by decide)⟩

theorem claim_C1_counterexample :
    enrichedIdsOf
        [(⟨"STMT-001", "a", "Intent", "Project-specific", "r"⟩ : ClassifiedStmt),
         ⟨"STMT-002", "b", "Interface", "Project-specific", "r"⟩]
      = ["INT-001", "INT-001"]
    ∧ enrichedStatementTextsOf
        [(⟨"STMT-001", "a", "Intent", "Project-specific", "r"⟩ : ClassifiedStmt),
         ⟨"STMT-002", "b", "Interface", "Project-specific", "r"⟩]
      = ["a", "b"] := by
  exact ⟨rfl, rfl⟩

/-- C4: routing is a pure function of the statement's TYPE: the fixed lookup
sends Intent to the goals document (`PM_Input`), Requirement to goals and
context, Constraint, Flow and Interface to the context document only, and
Design to the design-seed document (`Architect_Seeds`); every enriched
statement's routing set is exactly this lookup of its type, and in
particular a Constraint statement never routes to the goals document. -/
theorem claim_C4 :
    determineRouting "Intent" = ["PM_Input"]
    ∧ determineRouting "Requirement" = ["PM_Input", "Context"]
    ∧ determineRouting "Constraint" = ["Context"]
    ∧ determineRouting "Flow" = ["Context"]
    ∧ determineRouting "Interface" = ["Context"]
    ∧ determineRouting "Design" = ["Architect_Seeds"]
    ∧ ("PM_Input" : String) ∉ determineRouting "Constraint"
    ∧ ∀ (cls : List ClassifiedStmt) (es : List EnrichedStmt),
        enrichMetadata cls = .ok es → ∀ e ∈ es, e.routing = determineRouting e.type := by
  refine ⟨rfl, rfl, rfl, rfl, rfl, rfl, by decide, ?_⟩
  intro cls es h e he
  exact enrichGo_routing cls initCounters es h e he

theorem claim_C4_witness :
    enrichMetadata [⟨"STMT-001", "x", "Constraint", "Project-specific", "r"⟩]
        = Except.ok [enrichOne ⟨"STMT-001", "x", "Constraint", "Project-specific", "r"⟩ "CON" 1]
    ∧ ∀ e ∈ [enrichOne ⟨"STMT-001", "x", "Constraint", "Project-specific", "r"⟩ "CON" 1],
        e.routing = determineRouting e.type :=
  ⟨rfl, claim_C4.2.2.2.2.2.2.2
    [⟨"STMT-001", "x", "Constraint", "Project-specific", "r"⟩]
    [enrichOne ⟨"STMT-001", "x", "Constraint", "Project-specific", "r"⟩ "CON" 1] rfl⟩

/-- C10: enrichment is total only on the closed six-way type set: whenever
some classified statement carries a type string outside the closed set —
and the classifier forwards whatever type string a successfully decoded
response carries, without validation — `_enrich_metadata` raises a
`KeyError` on the per-type counter lookup instead of degrading
non-fatally. -/
theorem claim_C10 (cls : List ClassifiedStmt) (h : ∃ s ∈ cls, s.type ∉ sixTypes) :
    (∃ msg, enrichMetadata cls = .error msg)
    ∧ ∀ (txt t c r : String),
        (classifyStatements [(txt, ClassifyOutcome.obj (some t) (some c) (some r))]).map
            (fun x => x.type) = [t] :=
  ⟨enrichGo_err cls initCounters initCounters_dom h, fun _ _ _ _ => rfl⟩

theorem claim_C10_witness :
    (∃ s ∈ [(⟨"STMT-001", "x", "Banana", "Project-specific", "r"⟩ : ClassifiedStmt)],
        s.type ∉ sixTypes)
    ∧ (∃ msg, enrichMetadata
          [(⟨"STMT-001", "x", "Banana", "Project-specific", "r"⟩ : ClassifiedStmt)]
        = .error msg)
    ∧ ∀ (txt t c r : String),
        (classifyStatements [(txt, ClassifyOutcome.obj (some t) (some c) (some r))]).map
            (fun x => x.type) = [t] := by
  have h := claim_C10
    [(⟨"STMT-001", "x", "Banana", "Project-specific", "r"⟩ : ClassifiedStmt)] (by decide)
  exact ⟨by decide, h.1, h.2⟩

lemma classifyGo_getElem : ∀ (inputs : List (String × ClassifyOutcome)) (j i : Nat),
    (classifyGo j inputs)[i]? = (inputs[i]?).map (fun p => classifyOne (j + i) p.1 p.2) := by
  intro inputs
  induction inputs with
  | nil => intro j i; simp [classifyGo]
  | cons p rest ih =>
    intro j i
    cases p with
    | mk s o =>
      cases i with
      | zero => simp [classifyGo]
      | succ i' =>
        simp only [classifyGo, List.getElem?_cons_succ]
        rw [ih (j + 1) i']
        have harith : j + 1 + i' = j + (i' + 1) := by omega
        rw [harith]

lemma classifyGo_length : ∀ (inputs : List (String × ClassifyOutcome)) (j : Nat),
    (classifyGo j inputs).length = inputs.length := by
  intro inputs
  induction inputs with
  | nil => intro j; rfl
  | cons p rest ih =>
    intro j
    cases p with
    | mk s o => simp [classifyGo, ih (j + 1)]

/-- C3 (amended): a statement whose classification call raises or whose
response fails to decode as JSON gets exactly the fallback classification
`{type: Requirement, context: Project-specific}` with rationale
`Auto-classified (LLM error)` (decode failure) respectively
`Auto-classified (error)` (call exception); the statement is appended at
its position and classification continues over the whole list without
raising. -/
theorem claim_C3 (inputs : List (String × ClassifyOutcome)) (i : Nat) (s : String) :
    ((inputs[i]? = some (s, ClassifyOutcome.decodeError)) →
      (classifyStatements inputs)[i]? = some
        { id := "STMT-" ++ pad3 (i + 1), statement := s, type := "Requirement",
          context := "Project-specific",
          context_rationale := "Auto-classified (LLM error)" })
    ∧ ((inputs[i]? = some (s, ClassifyOutcome.raised)) →
      (classifyStatements inputs)[i]? = some
        { id := "STMT-" ++ pad3 (i + 1), statement := s, type := "Requirement",
          context := "Project-specific",
          context_rationale := "Auto-classified (error)" })
    ∧ (classifyStatements inputs).length = inputs.length := by
  refine ⟨fun h => ?_, fun h => ?_, classifyGo_length inputs 0⟩
  · rw [classifyStatements, classifyGo_getElem, h]
    simp [classifyOne]
  · rw [classifyStatements, classifyGo_getElem, h]
    simp [classifyOne]

theorem claim_C3_witness :
    ([("a", ClassifyOutcome.decodeError), ("b", ClassifyOutcome.raised)][0]? =
        some ("a", ClassifyOutcome.decodeError))
    ∧ (classifyStatements [("a", ClassifyOutcome.decodeError),
          ("b", ClassifyOutcome.raised)])[0]? = some
        { id := "STMT-" ++ pad3 1, statement := "a", type := "Requirement",
          context := "Project-specific",
          context_rationale := "Auto-classified (LLM error)" } :=
  ⟨rfl, (claim_C3 [("a", ClassifyOutcome.decodeError), ("b", ClassifyOutcome.raised)]
    0 "a").1 rfl⟩

theorem claim_C3_counterexample :
    (classifyStatements [("s", ClassifyOutcome.decodeError)]).map
        (fun c => c.context_rationale) = ["Auto-classified (LLM error)"]
    ∧ ("Auto-classified (LLM error)" : String) ≠ "auto-classified due to error" :=
  ⟨rfl, by decide⟩

lemma classifyGo_closed : ∀ (inputs : List (String × ClassifyOutcome)) (j : Nat),
    (∀ p ∈ inputs, okOutcome p.2 = true) →
    ∀ out ∈ classifyGo j inputs, out.type ∈ sixTypes ∧ out.context ∈ twoContexts := by
  intro inputs
  induction inputs with
  | nil => intro j _ out hout; simp [classifyGo] at hout
  | cons p rest ih =>
    intro j h out hout
    cases p with
    | mk s o =>
      rcases List.mem_cons.mp hout with rfl | hout'
      · have hfb : ("Requirement" : String) ∈ sixTypes ∧
            ("Project-specific" : String) ∈ twoContexts := by decide
        cases o with
        | raised => exact hfb
        | decodeError => exact hfb
        | obj ot oc orat =>
          cases ot with
          | none => exact hfb
          | some t =>
            cases oc with
            | none => exact hfb
            | some c =>
              cases orat with
              | none => exact hfb
              | some r =>
                have hp := h (s, .obj (some t) (some c) (some r))
                  (List.mem_cons_self _ rest)
                simp only [okOutcome, Bool.and_eq_true] at hp
                constructor
                · simpa using hp.1
                · simpa using hp.2
      · exact ih (j + 1) (fun q hq => h q (List.mem_cons_of_mem (s, o) hq)) out hout'

/-- C2 (amended): every statement emitted by the classification stage has a
non-absent type and context; these lie in the closed six-way and two-way
taxonomies *provided* every successfully decoded response carries closed
values (failed calls and undecodable responses always receive the closed
fallback values).  The classifier itself does not validate decoded values,
so a decoded response with an out-of-taxonomy value escapes the closed sets
(see the counterexample). -/
theorem claim_C2 (inputs : List (String × ClassifyOutcome))
    (h : ∀ p ∈ inputs, okOutcome p.2 = true) :
    ∀ out ∈ classifyStatements inputs, out.type ∈ sixTypes ∧ out.context ∈ twoContexts :=
  classifyGo_closed inputs 0 h

theorem claim_C2_witness :
    (∀ p ∈ [("a", ClassifyOutcome.obj (some "Intent") (some "Project-specific") (some "ok")),
            ("b", ClassifyOutcome.decodeError)], okOutcome p.2 = true)
    ∧ ∀ out ∈ classifyStatements
          [("a", ClassifyOutcome.obj (some "Intent") (some "Project-specific") (some "ok")),
           ("b", ClassifyOutcome.decodeError)],
        out.type ∈ sixTypes ∧ out.context ∈ twoContexts :=
  ⟨by decide, claim_C2
    [("a", ClassifyOutcome.obj (some "Intent") (some "Project-specific") (some "ok")),
     ("b", ClassifyOutcome.decodeError)] (by decide)⟩

theorem claim_C2_counterexample :
    (classifyStatements [("s", ClassifyOutcome.obj (some "Banana") (some "Whatever")
        (some "r"))]).map (fun c => (c.type, c.context)) = [("Banana", "Whatever")]
    ∧ ("Banana" : String) ∉ sixTypes
    ∧ ("Whatever" : String) ∉ twoContexts :=
  ⟨rfl, by decide, by decide⟩

lemma countP_env_proj (enriched : List EnrichedStmt)
    (h : ∀ s ∈ enriched, s.context = "Environment-specific" ∨ s.context = "Project-specific") :
    enriched.length
      = enriched.countP (fun s => s.context == "Environment-specific")
        + enriched.countP (fun s => s.context == "Project-specific") := by
  induction enriched with
  | nil => rfl
  | cons e l ih =>
    have hrest := ih (fun s hs => h s (List.mem_cons_of_mem e hs))
    rw [List.length_cons, List.countP_cons, List.countP_cons]
    rcases h e (List.mem_cons_self e l) with he | he <;> rw [he] <;> simp <;> omega

/-- C8: the structured context document's Requirements list consists exactly
of the Requirement-type statements, same members in original order; the
document's reported total equals the number of enriched statements; and
when every statement's context lies in the closed two-way set the metadata
totals satisfy
`total_statements = environment_specific + project_specific`. -/
theorem claim_C8 (now : String) (enriched : List EnrichedStmt) :
    ((generateContextYaml now enriched).requirements.map (fun r => (r.id, r.statement))
        = (enriched.filter (fun s => s.type = "Requirement")).map
            (fun s => (s.id, s.statement)))
    ∧ (generateContextYaml now enriched).requirements.length
        = (enriched.filter (fun s => s.type = "Requirement")).length
    ∧ (generateContextYaml now enriched).total_statements = enriched.length
    ∧ ((∀ s ∈ enriched,
          s.context = "Environment-specific" ∨ s.context = "Project-specific") →
        (generateContextYaml now enriched).total_statements
          = (generateContextYaml now enriched).environment_specific
            + (generateContextYaml now enriched).project_specific) := by
  refine ⟨?_, ?_, rfl, ?_⟩
  · simp [generateContextYaml, List.map_map]
  · simp [generateContextYaml]
  · intro h
    exact countP_env_proj enriched h

theorem claim_C8_witness :
    (∀ s ∈ [enrichOne ⟨"STMT-001", "Users can upload files", "Requirement",
        "Project-specific", "r"⟩ "REQ" 1],
      s.context = "Environment-specific" ∨ s.context = "Project-specific")
    ∧ (generateContextYaml "now"
          [enrichOne ⟨"STMT-001", "Users can upload files", "Requirement",
            "Project-specific", "r"⟩ "REQ" 1]).total_statements
        = (generateContextYaml "now"
            [enrichOne ⟨"STMT-001", "Users can upload files", "Requirement",
              "Project-specific", "r"⟩ "REQ" 1]).environment_specific
          + (generateContextYaml "now"
              [enrichOne ⟨"STMT-001", "Users can upload files", "Requirement",
                "Project-specific", "r"⟩ "REQ" 1]).project_specific :=
  ⟨by decide, (claim_C8 "now"
    [enrichOne ⟨"STMT-001", "Users can upload files", "Requirement",
      "Project-specific", "r"⟩ "REQ" 1]).2.2.2 (by decide)⟩

lemma count_intent_missing_msgs (enriched : List EnrichedStmt) :
    (((enriched.filter (fun s => s.type = "" ∨ s.context = "")).map
        (fun s => "FAIL: " ++ s.id ++ " missing type or context")).count intentWarning = 0)
    ∧ (∀ x : String,
        ("WARN: Environment-specific % is " ++ x ++ "% (expected 20-40%)") ≠ intentWarning)
    ∧ (∀ x : String,
        ("WARN: Requirements only " ++ x ++ "% - expected 40-60%") ≠ intentWarning) := by
  refine ⟨?_, ?_, ?_⟩
  · rw [List.count_eq_zero]
    intro hmem
    rcases List.mem_map.mp hmem with ⟨s, _, hs⟩
    have h1 : ("FAIL: " ++ s.id ++ " missing type or context").data[0]? = some 'F' := rfl
    rw [hs] at h1
    exact absurd h1 (by decide)
  · intro x hc
    have h1 :
        ("WARN: Environment-specific % is " ++ x ++ "% (expected 20-40%)").data[6]?
          = some 'E' := rfl
    rw [hc] at h1
    exact absurd h1 (by decide)
  · intro x hc
    have h1 :
        ("WARN: Requirements only " ++ x ++ "% - expected 40-60%").data[6]?
          = some 'R' := rfl
    rw [hc] at h1
    exact absurd h1 (by decide)

lemma validate_one_intent_warning {enriched : List EnrichedStmt}
    (h : enriched.countP (fun s => s.type == "Intent") = 0) :
    (validateClassifications enriched).count intentWarning = 1 := by
  obtain ⟨hA, hB, hD⟩ := count_intent_missing_msgs enriched
  unfold validateClassifications
  rw [h]
  simp only [if_pos rfl]
  rw [List.count_append, List.count_append, List.count_append, hA]
  have hBc : (if enriched.length = 0
        ∨ enriched.countP (fun s => s.context == "Environment-specific") * 100
            < 15 * enriched.length
        ∨ 60 * enriched.length
            < enriched.countP (fun s => s.context == "Environment-specific") * 100 then
      ["WARN: Environment-specific % is "
        ++ fmtPct (enriched.countP (fun s => s.context == "Environment-specific"))
            enriched.length ++ "% (expected 20-40%)"]
      else []).count intentWarning = 0 := by
    split
    · simp [List.count_cons, beq_iff_eq, hB]
    · rfl
  have hDc : (if enriched.length = 0
        ∨ enriched.countP (fun s => s.type == "Requirement") * 100
            < 30 * enriched.length then
      ["WARN: Requirements only "
        ++ fmtPct (enriched.countP (fun s => s.type == "Requirement"))
            enriched.length ++ "% - expected 40-60%"]
      else []).count intentWarning = 0 := by
    split
    · simp [List.count_cons, beq_iff_eq, hD]
    · rfl
  rw [hBc, hDc]
  simp [List.count_cons]

/-- C9: on an enriched corpus with zero Intent statements the validator
emits exactly one missing-Intent warning, the pipeline still produces all
three named output artifacts, and validation neither halts the run nor
alters the enriched statements — the outputs are generated from the very
same enriched list. -/
theorem claim_C9 (now : String) (enriched : List EnrichedStmt)
    (h : enriched.countP (fun s => s.type == "Intent") = 0) :
    (validateClassifications enriched).count intentWarning = 1
    ∧ (generateOutputs now enriched).map Prod.fst
        = ["pm_input.md", "project_context.yaml", "architect_seeds.md"]
    ∧ runFromEnriched now enriched
        = (validateClassifications enriched, generateOutputs now enriched) :=
  ⟨validate_one_intent_warning h, rfl, rfl⟩

theorem claim_C9_witness :
    ([enrichOne ⟨"STMT-001", "Users can upload files", "Requirement",
        "Project-specific", "r"⟩ "REQ" 1].countP (fun s => s.type == "Intent") = 0)
    ∧ (validateClassifications
          [enrichOne ⟨"STMT-001", "Users can upload files", "Requirement",
            "Project-specific", "r"⟩ "REQ" 1]).count intentWarning = 1
    ∧ (generateOutputs "now"
          [enrichOne ⟨"STMT-001", "Users can upload files", "Requirement",
            "Project-specific", "r"⟩ "REQ" 1]).map Prod.fst
        = ["pm_input.md", "project_context.yaml", "architect_seeds.md"] := by
  have h := claim_C9 "now"
    [enrichOne ⟨"STMT-001", "Users can upload files", "Requirement",
      "Project-specific", "r"⟩ "REQ" 1] (by decide)
  exact ⟨by decide, h.1, h.2.1⟩

end LaravelIngest
